import Mathlib

/-!
Verification of the FlowBuilder traversal engine (`src/index.tsx`, `Viewer`
component).  The graph data model (`NodeData`, `Edge`), the traversal state
(`history`, `currentNodeId`, `selections`) and the transition handlers
(`handleBack`, `handleContinue`, `toggleSelection`) are embedded below as
executable Lean functions, translated clause by clause from the TypeScript
source.  JavaScript's stable `sort` with the length/label comparator is
modelled by `List.insertionSort` over `pathLE`, and `localeCompare` by the
character-wise lexicographic comparison `strLE`.
-/

namespace FlowBuilder

/-- The four node kinds of `NodeType` in the source:
`'static' | 'radio' | 'checkbox' | 'end'` (the last is named `endNode`
here because `end` is reserved in Lean). -/
inductive NodeType where
  | static
  | radio
  | checkbox
  | endNode
deriving DecidableEq, Repr

/-- `Option {id, label}` from the source (renamed `FlowOption` to avoid
clashing with Lean's `Option`). -/
structure FlowOption where
  id : String
  label : String
deriving DecidableEq, Repr

/-- `LogicPath {id, label, requiredOptionIds}` from the source. -/
structure LogicPath where
  id : String
  label : String
  requiredOptionIds : List String
deriving DecidableEq, Repr

/-- `NodeData` from the source.  The optional TypeScript fields
`options?`, `paths?`, `canRestart?` are modelled as a list / Bool, matching
how the code reads them (`data.paths || []`, truthiness of `canRestart`). -/
structure NodeData where
  label : String
  content : String
  type : NodeType
  options : List FlowOption
  paths : List LogicPath
  canRestart : Bool
deriving DecidableEq, Repr

/-- An `AppNode`: id plus data (position and rendering fields are irrelevant
to traversal and omitted). -/
structure AppNode where
  id : String
  data : NodeData
deriving DecidableEq, Repr

/-- A react-flow `Edge` as used by the traversal code: `source`, `target`,
and the optional `sourceHandle` (the outlet: a choice id or path id). -/
structure Edge where
  source : String
  target : String
  sourceHandle : Option String
deriving DecidableEq, Repr

/-- The `Viewer`'s traversal state: the `history`, `currentNodeId` and
`selections` `useState` hooks. -/
structure ViewerState where
  history : List String
  currentNodeId : String
  selections : List String
deriving DecidableEq, Repr

/-- `nodes.find(n => n.id === id)`. -/
def findNode (nodes : List AppNode) (id : String) : Option AppNode :=
  nodes.find? (fun n => n.id == id)

/-- Character-list lexicographic "less or equal", the model of
`a.label.localeCompare(b.label) <= 0`. -/
def charListLE : List Char → List Char → Bool
  | [], _ => true
  | _ :: _, [] => false
  | a :: as, b :: bs =>
    if a < b then true
    else if b < a then false
    else charListLE as bs

/-- Lexicographic "less or equal" on strings. -/
def strLE (a b : String) : Bool :=
  charListLE a.data b.data

/-- Strict lexicographic order on strings. -/
def strLT (a b : String) : Bool :=
  !(strLE b a)

/-- The sort comparator on paths from `handleContinue`:
descending by `requiredOptionIds.length`, then ascending by `label`
(`b.requiredOptionIds.length - a.requiredOptionIds.length`, then
`a.label.localeCompare(b.label)`), rendered as a boolean "a before b". -/
def pathLE (a b : LogicPath) : Bool :=
  if a.requiredOptionIds.length = b.requiredOptionIds.length then
    strLE a.label b.label
  else
    decide (b.requiredOptionIds.length < a.requiredOptionIds.length)

/-- `pathLE` as a relation, for `List.insertionSort`. -/
def pathRel (a b : LogicPath) : Prop :=
  pathLE a b = true

instance : DecidableRel pathRel :=
  fun a b => inferInstanceAs (Decidable (pathLE a b = true))

/-- `[...paths].sort(comparator)` from `handleContinue`.  JavaScript's
`Array.prototype.sort` is a stable sort, and a stable sort's output over a
total preorder is unique, so the structural `List.insertionSort` (stable)
models it exactly. -/
def sortPaths (paths : List LogicPath) : List LogicPath :=
  List.insertionSort pathRel paths

/-- The match predicate from `handleContinue`:
`path.requiredOptionIds.every(req => selections.includes(req))`. -/
def matchesPath (selections : List String) (p : LogicPath) : Bool :=
  p.requiredOptionIds.all (fun req => selections.contains req)

/-- `sortedPaths.find(path => ...)`: the checkbox path resolution. -/
def resolvePath (paths : List LogicPath) (selections : List String) :
    Option LogicPath :=
  (sortPaths paths).find? (matchesPath selections)

/-- Outcome of one `handleContinue` call, read off from which branch runs:
a committed move, a restart, the silent return on a non-restartable end
node, the silent return when the current node is missing, the
"No valid path defined for this selection." alert, or the
"Configuration Error: The next node is missing." alert. -/
inductive ContinueOutcome where
  | moved
  | restarted
  | terminalBlocked
  | missingCurrent
  | noPathDefined
  | danglingTarget
deriving DecidableEq, Repr

/-- The `let nextEdge` computation of `handleContinue`: which outgoing edge,
if any, applies for the current non-end node and the live selections. -/
def nextEdgeFor (edges : List Edge) (currentNode : AppNode)
    (s : ViewerState) : Option Edge :=
  if currentNode.data.type = NodeType.static then
    edges.find? (fun e => e.source == s.currentNodeId)
  else if currentNode.data.type = NodeType.radio then
    edges.find? (fun e => e.source == s.currentNodeId &&
      e.sourceHandle == s.selections.head?)
  else if currentNode.data.type = NodeType.checkbox then
    match resolvePath currentNode.data.paths s.selections with
    | some matchedPath =>
      edges.find? (fun e => e.source == s.currentNodeId &&
        e.sourceHandle == some matchedPath.id)
    | none => none
  else none

/-- `handleContinue` from the `Viewer`, returning the state after the call
(unchanged on every non-committing branch, since the code only calls the
state setters on the restart and commit branches) together with the
branch taken. -/
def handleContinue (nodes : List AppNode) (edges : List Edge)
    (s : ViewerState) : ViewerState × ContinueOutcome :=
  match findNode nodes s.currentNodeId with
  | none => (s, ContinueOutcome.missingCurrent)
  | some currentNode =>
    if currentNode.data.type = NodeType.endNode then
      if currentNode.data.canRestart then
        (⟨[], "start", []⟩, ContinueOutcome.restarted)
      else
        (s, ContinueOutcome.terminalBlocked)
    else
      match nextEdgeFor edges currentNode s with
      | none => (s, ContinueOutcome.noPathDefined)
      | some e =>
        match findNode nodes e.target with
        | some _ =>
          (⟨s.history ++ [s.currentNodeId], e.target, []⟩,
            ContinueOutcome.moved)
        | none => (s, ContinueOutcome.danglingTarget)

/-- `handleBack` from the `Viewer`: on non-empty history, pop the last
entry; the `if (prevId)` truthiness guard then restores `currentNodeId`
and clears selections only when the popped id is non-empty (the empty
string is falsy in JavaScript, so popping `""` shortens history but leaves
position and selections untouched); no-op on empty history. -/
def handleBack (s : ViewerState) : ViewerState :=
  match s.history.getLast? with
  | none => s
  | some prevId =>
    if prevId = "" then
      ⟨s.history.dropLast, s.currentNodeId, s.selections⟩
    else
      ⟨s.history.dropLast, prevId, []⟩

/-- `toggleSelection` from the `Viewer`. -/
def toggleSelection (s : ViewerState) (optId : String) (isRadio : Bool) :
    ViewerState :=
  if isRadio then
    ⟨s.history, s.currentNodeId, [optId]⟩
  else if s.selections.contains optId then
    ⟨s.history, s.currentNodeId, s.selections.filter (fun id => id ≠ optId)⟩
  else
    ⟨s.history, s.currentNodeId, s.selections ++ [optId]⟩

/-- The Continue-button gate from the `Viewer`'s render code: the button is
disabled when `currentNode.data.type !== 'static' && selections.length === 0`;
for an end node the Restart button is rendered only when `canRestart`. -/
def canAdvance (currentNode : AppNode) (selections : List String) : Bool :=
  if currentNode.data.type = NodeType.endNode then
    currentNode.data.canRestart
  else
    currentNode.data.type = NodeType.static || !selections.isEmpty

/-- The failure mode of starting a run. -/
inductive StartError where
  | MissingStep
deriving DecidableEq, Repr

/-- The `Viewer`'s initial state: `history = []`, `currentNodeId = 'start'`,
`selections = []`. -/
def initialViewerState : ViewerState :=
  ⟨[], "start", []⟩

/-- Starting a run, from the `Viewer`'s mount: the state hooks initialise to
`initialViewerState`, and `if (!currentNode) return <div>Node not found</div>`
surfaces a missing start node, modelled as `MissingStep`. -/
def startFlow (nodes : List AppNode) : Except StartError ViewerState :=
  match findNode nodes initialViewerState.currentNodeId with
  | some _ => Except.ok initialViewerState
  | none => Except.error StartError.MissingStep

/-! ## Order-theoretic facts about the sort comparator -/

theorem charListLE_refl : ∀ (l : List Char), charListLE l l = true
  | [] => rfl
  | a :: as => by
    unfold charListLE
    rw [if_neg (lt_irrefl a), if_neg (lt_irrefl a)]
    exact charListLE_refl as

theorem charListLE_total : ∀ (a b : List Char),
    charListLE a b = true ∨ charListLE b a = true
  | [], _ => Or.inl rfl
  | _ :: _, [] => Or.inr rfl
  | a :: as, b :: bs => by
    unfold charListLE
    rcases lt_trichotomy a b with h | h | h
    · left; rw [if_pos h]
    · subst h
      rw [if_neg (lt_irrefl a), if_neg (lt_irrefl a), if_neg (lt_irrefl a),
        if_neg (lt_irrefl a)]
      exact charListLE_total as bs
    · right; rw [if_pos h]

theorem charListLE_trans : ∀ (a b c : List Char),
    charListLE a b = true → charListLE b c = true → charListLE a c = true
  | [], _, _, _, _ => rfl
  | _ :: _, [], _, hab, _ => by
    unfold charListLE at hab; exact absurd hab (by decide)
  | _ :: _, _ :: _, [], _, hbc => by
    unfold charListLE at hbc; exact absurd hbc (by decide)
  | a :: as, b :: bs, c :: cs, hab, hbc => by
    unfold charListLE at hab hbc ⊢
    rcases lt_trichotomy a b with h1 | h1 | h1
    · rcases lt_trichotomy b c with h2 | h2 | h2
      · rw [if_pos (lt_trans h1 h2)]
      · subst h2; rw [if_pos h1]
      · rw [if_neg (not_lt_of_gt h2), if_pos h2] at hbc
        exact absurd hbc (by decide)
    · subst h1
      rw [if_neg (lt_irrefl a), if_neg (lt_irrefl a)] at hab
      rcases lt_trichotomy a c with h2 | h2 | h2
      · rw [if_pos h2]
      · subst h2
        rw [if_neg (lt_irrefl a), if_neg (lt_irrefl a)] at hbc
        rw [if_neg (lt_irrefl a), if_neg (lt_irrefl a)]
        exact charListLE_trans as bs cs hab hbc
      · rw [if_neg (not_lt_of_gt h2), if_pos h2] at hbc
        exact absurd hbc (by decide)
    · rw [if_neg (not_lt_of_gt h1), if_pos h1] at hab
      exact absurd hab (by decide)

theorem strLE_refl (s : String) : strLE s s = true :=
  charListLE_refl s.data

theorem strLE_total (a b : String) : strLE a b = true ∨ strLE b a = true :=
  charListLE_total a.data b.data

theorem strLE_trans (a b c : String) :
    strLE a b = true → strLE b c = true → strLE a c = true :=
  charListLE_trans a.data b.data c.data

theorem pathLE_refl (p : LogicPath) : pathLE p p = true := by
  unfold pathLE
  rw [if_pos rfl]
  exact strLE_refl p.label

instance : IsTotal LogicPath pathRel := by
  constructor
  intro a b
  unfold pathRel pathLE
  by_cases h : a.requiredOptionIds.length = b.requiredOptionIds.length
  · rw [if_pos h, if_pos h.symm]
    exact strLE_total a.label b.label
  · rw [if_neg h, if_neg (Ne.symm h)]
    rcases Nat.lt_or_ge a.requiredOptionIds.length b.requiredOptionIds.length
      with hl | hl
    · right; simpa using hl
    · left
      have : b.requiredOptionIds.length < a.requiredOptionIds.length :=
        lt_of_le_of_ne hl (fun hx => h hx.symm)
      simpa using this

instance : IsTrans LogicPath pathRel := by
  constructor
  intro a b c hab hbc
  unfold pathRel pathLE at hab hbc ⊢
  by_cases h1 : a.requiredOptionIds.length = b.requiredOptionIds.length
  · by_cases h2 : b.requiredOptionIds.length = c.requiredOptionIds.length
    · rw [if_pos h1] at hab
      rw [if_pos h2] at hbc
      rw [if_pos (h1.trans h2)]
      exact strLE_trans _ _ _ hab hbc
    · rw [if_neg h2] at hbc
      simp only [decide_eq_true_eq] at hbc
      rw [if_neg (by omega)]
      simp only [decide_eq_true_eq]
      omega
  · by_cases h2 : b.requiredOptionIds.length = c.requiredOptionIds.length
    · rw [if_neg h1] at hab
      simp only [decide_eq_true_eq] at hab
      rw [if_neg (by omega)]
      simp only [decide_eq_true_eq]
      omega
    · rw [if_neg h1] at hab
      rw [if_neg h2] at hbc
      simp only [decide_eq_true_eq] at hab hbc
      rw [if_neg (by omega)]
      simp only [decide_eq_true_eq]
      omega

theorem sortPaths_pairwise (paths : List LogicPath) :
    (sortPaths paths).Pairwise pathRel :=
  List.sorted_insertionSort pathRel paths

theorem mem_sortPaths {p : LogicPath} {paths : List LogicPath} :
    p ∈ sortPaths paths ↔ p ∈ paths :=
  List.mem_insertionSort pathRel

/-- In a list sorted by `le`, `find?` can never return an element `x` when
some earlier-or-equal competitor `w` (one with `¬ le x w`) also satisfies the
predicate: `w` either precedes every occurrence of `x` or coincides with it. -/
theorem find?_pairwise_ne {α : Type} (p : α → Bool) (le : α → α → Prop) :
    ∀ (l : List α), l.Pairwise le → ∀ w x : α, w ∈ l → p w = true →
      ¬ le x w → le x x → l.find? p ≠ some x
  | [], _, w, _, hw, _, _, _ => by simp at hw
  | h :: t, hp, w, x, hw, hwm, hxw, hxx => by
    rcases List.pairwise_cons.mp hp with ⟨hhead, htail⟩
    by_cases hph : p h = true
    · rw [List.find?_cons_of_pos t hph]
      intro hc
      injection hc with hc
      subst hc
      rcases List.mem_cons.mp hw with rfl | hwt
      · exact hxw hxx
      · exact hxw (hhead w hwt)
    · rw [List.find?_cons_of_neg t hph]
      have hwt : w ∈ t := by
        rcases List.mem_cons.mp hw with rfl | hwt
        · exact absurd hwm hph
        · exact hwt
      exact find?_pairwise_ne p le t htail w x hwt hwm hxw hxx

theorem matchesPath_iff (S : List String) (q : LogicPath) :
    matchesPath S q = true ↔ ∀ r ∈ q.requiredOptionIds, r ∈ S := by
  unfold matchesPath
  rw [List.all_eq_true]
  constructor
  · intro h r hr
    exact List.elem_iff.mp (h r hr)
  · intro h r hr
    exact List.elem_iff.mpr (h r hr)

/-! ## Claim theorems -/

/-- Claim C1: MultiChoice path matching uses subset matching with
specificity ordering: a path matches the selection set `S` exactly when all
of its `requiredOptionIds` are members of `S` (subset, not exact match),
and whenever two matching paths `P1`, `P2` have duplicate-free required
sets with `P1`'s a strict subset of `P2`'s, path resolution never returns
`P1` — and it does return some path. -/
theorem multiChoice_subset_and_specificity
    (S : List String) (q : LogicPath) (paths : List LogicPath)
    (P1 P2 : LogicPath)
    (h1 : P1 ∈ paths) (h2 : P2 ∈ paths)
    (hn1 : P1.requiredOptionIds.Nodup) (hn2 : P2.requiredOptionIds.Nodup)
    (hm1 : matchesPath S P1 = true) (hm2 : matchesPath S P2 = true)
    (hsub : P1.requiredOptionIds.toFinset ⊂ P2.requiredOptionIds.toFinset) :
    (matchesPath S q = true ↔ ∀ r ∈ q.requiredOptionIds, r ∈ S) ∧
    resolvePath paths S ≠ some P1 ∧
    (resolvePath paths S).isSome = true := by
  have hlen : P1.requiredOptionIds.length < P2.requiredOptionIds.length := by
    rw [← List.toFinset_card_of_nodup hn1, ← List.toFinset_card_of_nodup hn2]
    exact Finset.card_lt_card hsub
  have hxw : ¬ pathRel P1 P2 := by
    unfold pathRel pathLE
    rw [if_neg (Nat.ne_of_lt hlen)]
    simp only [decide_eq_true_eq]
    omega
  refine ⟨matchesPath_iff S q, ?_, ?_⟩
  · exact find?_pairwise_ne (matchesPath S) pathRel (sortPaths paths)
      (sortPaths_pairwise paths) P2 P1 (mem_sortPaths.mpr h2) hm2 hxw
      (pathLE_refl P1)
  · exact List.find?_isSome.mpr ⟨P2, mem_sortPaths.mpr h2, hm2⟩

/-- Witness for C1: paths `One{A}` and `Two{A,B}` with selections
`{A, B}` — both match, `{A} ⊂ {A,B}`, and resolution avoids `One`. -/
theorem multiChoice_subset_and_specificity_witness :
    (matchesPath ["A", "B"] ⟨"p1", "One", ["A"]⟩ = true ↔
      ∀ r ∈ (⟨"p1", "One", ["A"]⟩ : LogicPath).requiredOptionIds,
        r ∈ ["A", "B"]) ∧
    resolvePath [⟨"p1", "One", ["A"]⟩, ⟨"p2", "Two", ["A", "B"]⟩]
      ["A", "B"] ≠ some ⟨"p1", "One", ["A"]⟩ ∧
    (resolvePath [⟨"p1", "One", ["A"]⟩, ⟨"p2", "Two", ["A", "B"]⟩]
      ["A", "B"]).isSome = true :=
  multiChoice_subset_and_specificity ["A", "B"] ⟨"p1", "One", ["A"]⟩
    [⟨"p1", "One", ["A"]⟩, ⟨"p2", "Two", ["A", "B"]⟩]
    ⟨"p1", "One", ["A"]⟩ ⟨"p2", "Two", ["A", "B"]⟩
    (by decide) (by decide) (by decide) (by decide) (by decide) (by decide)
    (by decide)

/-- Claim C2: MultiChoice tie-breaking: if `P1` and `P2` both match, their
(duplicate-free) required sets have equal cardinality, that cardinality is
maximal among matching paths, and `P1.label` is lexicographically smaller
than `P2.label`, then resolution never returns `P2`, it does return some
path, and when `P1`, `P2` are the only matching paths it returns `P1`. -/
theorem multiChoice_tiebreak_label
    (S : List String) (paths : List LogicPath) (P1 P2 : LogicPath)
    (h1 : P1 ∈ paths) (h2 : P2 ∈ paths)
    (hn1 : P1.requiredOptionIds.Nodup) (hn2 : P2.requiredOptionIds.Nodup)
    (hm1 : matchesPath S P1 = true) (hm2 : matchesPath S P2 = true)
    (hcard : P1.requiredOptionIds.toFinset.card =
      P2.requiredOptionIds.toFinset.card)
    (hmax : ∀ q ∈ paths, matchesPath S q = true →
      q.requiredOptionIds.length ≤ P1.requiredOptionIds.length)
    (hlab : strLT P1.label P2.label = true) :
    resolvePath paths S ≠ some P2 ∧
    (resolvePath paths S).isSome = true ∧
    ((∀ q ∈ paths, matchesPath S q = true → q = P1 ∨ q = P2) →
      resolvePath paths S = some P1) := by
  have hlen : P1.requiredOptionIds.length = P2.requiredOptionIds.length := by
    rw [← List.toFinset_card_of_nodup hn1, ← List.toFinset_card_of_nodup hn2]
    exact hcard
  have hxw : ¬ pathRel P2 P1 := by
    unfold pathRel pathLE
    rw [if_pos hlen.symm]
    unfold strLT at hlab
    simp only [Bool.not_eq_true'] at hlab
    simp [hlab]
  have hne : resolvePath paths S ≠ some P2 :=
    find?_pairwise_ne (matchesPath S) pathRel (sortPaths paths)
      (sortPaths_pairwise paths) P1 P2 (mem_sortPaths.mpr h1) hm1 hxw
      (pathLE_refl P2)
  have hsome : (resolvePath paths S).isSome = true :=
    List.find?_isSome.mpr ⟨P1, mem_sortPaths.mpr h1, hm1⟩
  refine ⟨hne, hsome, ?_⟩
  intro honly
  obtain ⟨r, hr⟩ := Option.isSome_iff_exists.mp hsome
  have hrm : matchesPath S r = true := List.find?_some hr
  have hrmem : r ∈ paths := mem_sortPaths.mp (List.mem_of_find?_eq_some hr)
  rcases honly r hrmem hrm with rfl | rfl
  · exact hr
  · exact absurd hr hne

/-- Witness for C2: paths `Alpha{A}` and `Beta{B}` with selections
`{A, B}` — both match with required sets of cardinality 1, and resolution
picks `Alpha`, the lexicographically smaller label. -/
theorem multiChoice_tiebreak_label_witness :
    resolvePath [⟨"pa", "Alpha", ["A"]⟩, ⟨"pb", "Beta", ["B"]⟩]
      ["A", "B"] ≠ some ⟨"pb", "Beta", ["B"]⟩ ∧
    (resolvePath [⟨"pa", "Alpha", ["A"]⟩, ⟨"pb", "Beta", ["B"]⟩]
      ["A", "B"]).isSome = true ∧
    ((∀ q ∈ [(⟨"pa", "Alpha", ["A"]⟩ : LogicPath), ⟨"pb", "Beta", ["B"]⟩],
        matchesPath ["A", "B"] q = true →
        q = ⟨"pa", "Alpha", ["A"]⟩ ∨ q = ⟨"pb", "Beta", ["B"]⟩) →
      resolvePath [⟨"pa", "Alpha", ["A"]⟩, ⟨"pb", "Beta", ["B"]⟩]
        ["A", "B"] = some ⟨"pa", "Alpha", ["A"]⟩) :=
  multiChoice_tiebreak_label ["A", "B"]
    [⟨"pa", "Alpha", ["A"]⟩, ⟨"pb", "Beta", ["B"]⟩]
    ⟨"pa", "Alpha", ["A"]⟩ ⟨"pb", "Beta", ["B"]⟩
    (by decide) (by decide) (by decide) (by decide) (by decide) (by decide)
    (by decide) (by decide) (by decide)

/-- Every branch of `handleContinue` either leaves the state untouched or is
one of the two committing branches (a move or a restart). -/
theorem handleContinue_state_or_commit (nodes : List AppNode)
    (edges : List Edge) (s : ViewerState) :
    (handleContinue nodes edges s).1 = s ∨
    (handleContinue nodes edges s).2 = ContinueOutcome.moved ∨
    (handleContinue nodes edges s).2 = ContinueOutcome.restarted := by
  unfold handleContinue
  cases findNode nodes s.currentNodeId with
  | none => exact Or.inl rfl
  | some n =>
    dsimp only
    by_cases h1 : n.data.type = NodeType.endNode
    · rw [if_pos h1]
      by_cases h2 : n.data.canRestart = true
      · rw [if_pos h2]
        exact Or.inr (Or.inr rfl)
      · rw [if_neg h2]
        exact Or.inl rfl
    · rw [if_neg h1]
      cases nextEdgeFor edges n s with
      | none => exact Or.inl rfl
      | some e =>
        dsimp only
        cases findNode nodes e.target with
        | none => exact Or.inl rfl
        | some t => exact Or.inr (Or.inl rfl)

/-- Claim C3: atomicity of advance on failure: whenever `handleContinue`
fails with no matching connection/path (`noPathDefined`) or a missing
resolved target (`danglingTarget`), the resulting traversal state —
history, current step and selections — is exactly the prior state. -/
theorem advance_failure_is_atomic (nodes : List AppNode) (edges : List Edge)
    (s : ViewerState)
    (h : (handleContinue nodes edges s).2 = ContinueOutcome.noPathDefined ∨
      (handleContinue nodes edges s).2 = ContinueOutcome.danglingTarget) :
    (handleContinue nodes edges s).1 = s := by
  rcases handleContinue_state_or_commit nodes edges s with hs | hc | hc
  · exact hs
  · rcases h with h | h <;> rw [hc] at h <;> exact absurd h (by decide)
  · rcases h with h | h <;> rw [hc] at h <;> exact absurd h (by decide)

/-- Witness for C3: a lone static start node with no edges — advancing
fails with `noPathDefined` and the state is untouched. -/
theorem advance_failure_is_atomic_witness :
    (handleContinue [⟨"start", ⟨"Start", "w", NodeType.static, [], [], false⟩⟩]
      [] ⟨[], "start", []⟩).1 = ⟨[], "start", []⟩ :=
  advance_failure_is_atomic
    [⟨"start", ⟨"Start", "w", NodeType.static, [], [], false⟩⟩]
    [] ⟨[], "start", []⟩ (Or.inl (by decide))

/-- On the committing `moved` branch, the new state is exactly the prior
history with the prior current step appended, the edge target as the new
current step, and cleared selections. -/
theorem handleContinue_shape (nodes : List AppNode) (edges : List Edge)
    (s : ViewerState) :
    (handleContinue nodes edges s).2 ≠ ContinueOutcome.moved ∨
    ∃ t, handleContinue nodes edges s =
      (⟨s.history ++ [s.currentNodeId], t, []⟩, ContinueOutcome.moved) := by
  unfold handleContinue
  cases findNode nodes s.currentNodeId with
  | none => exact Or.inl (by simp)
  | some n =>
    dsimp only
    by_cases h1 : n.data.type = NodeType.endNode
    · rw [if_pos h1]
      by_cases h2 : n.data.canRestart = true
      · rw [if_pos h2]
        exact Or.inl (by simp)
      · rw [if_neg h2]
        exact Or.inl (by simp)
    · rw [if_neg h1]
      cases nextEdgeFor edges n s with
      | none => exact Or.inl (by simp)
      | some e =>
        dsimp only
        cases findNode nodes e.target with
        | none => exact Or.inl (by simp)
        | some t => exact Or.inr ⟨e.target, rfl⟩

/-- Claim C5 (amended): `back` after an `advance` that commits a move via a
connection (outcome `moved`) from a step with a non-empty id restores that
prior current step id and clears the selections.  (A terminal restart is
also a successful `advance` but clears history, so `back` cannot restore
the terminal step — see the counterexample; and an empty-string prior id
is skipped by the pop's truthiness guard.) -/
theorem back_after_moved_roundtrip (nodes : List AppNode) (edges : List Edge)
    (s : ViewerState)
    (h : (handleContinue nodes edges s).2 = ContinueOutcome.moved)
    (hne : ¬ s.currentNodeId = "") :
    (handleBack (handleContinue nodes edges s).1).currentNodeId =
      s.currentNodeId ∧
    (handleBack (handleContinue nodes edges s).1).selections = [] := by
  rcases handleContinue_shape nodes edges s with hno | ⟨t, ht⟩
  · exact absurd h hno
  · rw [ht]
    unfold handleBack
    rw [List.getLast?_concat]
    dsimp only
    rw [if_neg hne]
    exact ⟨rfl, rfl⟩

/-- Witness for C5 (amended): advancing from a static start to `X`, then
back, lands on `start` again with empty selections. -/
theorem back_after_moved_roundtrip_witness :
    (handleBack (handleContinue
      [⟨"start", ⟨"Start", "w", NodeType.static, [], [], false⟩⟩,
       ⟨"X", ⟨"X", "x", NodeType.static, [], [], false⟩⟩]
      [⟨"start", "X", none⟩] ⟨[], "start", []⟩).1).currentNodeId =
      "start" ∧
    (handleBack (handleContinue
      [⟨"start", ⟨"Start", "w", NodeType.static, [], [], false⟩⟩,
       ⟨"X", ⟨"X", "x", NodeType.static, [], [], false⟩⟩]
      [⟨"start", "X", none⟩] ⟨[], "start", []⟩).1).selections = [] :=
  back_after_moved_roundtrip
    [⟨"start", ⟨"Start", "w", NodeType.static, [], [], false⟩⟩,
     ⟨"X", ⟨"X", "x", NodeType.static, [], [], false⟩⟩]
    [⟨"start", "X", none⟩] ⟨[], "start", []⟩ (by decide) (by decide)

/-- Counterexample to C5 as stated: on a restartable terminal `T`,
`advance` succeeds and moves from `T` to `start`, but it also clears the
history, so a subsequent `back` leaves the current step at `start`, not at
the prior step `T`. -/
theorem back_after_restart_counterexample :
    handleContinue
      [⟨"start", ⟨"Start", "w", NodeType.static, [], [], false⟩⟩,
       ⟨"T", ⟨"End", "e", NodeType.endNode, [], [], true⟩⟩]
      [] ⟨["start"], "T", []⟩ =
      (⟨[], "start", []⟩, ContinueOutcome.restarted) ∧
    (handleBack ⟨[], "start", []⟩).currentNodeId = "start" ∧
    ("start" : String) ≠ "T" := by decide

/-- Claim C6: advancing on a Terminal step with `canRestart = true` yields
the initial state — empty history, empty selections, current step
`"start"` — regardless of the prior history and selections. -/
theorem terminal_restart_resets (nodes : List AppNode) (edges : List Edge)
    (s : ViewerState) (n : AppNode)
    (hfind : findNode nodes s.currentNodeId = some n)
    (htype : n.data.type = NodeType.endNode)
    (hres : n.data.canRestart = true) :
    handleContinue nodes edges s =
      (⟨[], "start", []⟩, ContinueOutcome.restarted) := by
  simp [handleContinue, hfind, htype, hres]

/-- Witness for C6: a restartable terminal with non-trivial history and
selections resets to the initial state. -/
theorem terminal_restart_resets_witness :
    handleContinue
      [⟨"T", ⟨"End", "e", NodeType.endNode, [], [], true⟩⟩]
      [] ⟨["a", "b"], "T", ["x"]⟩ =
      (⟨[], "start", []⟩, ContinueOutcome.restarted) :=
  terminal_restart_resets
    [⟨"T", ⟨"End", "e", NodeType.endNode, [], [], true⟩⟩]
    [] ⟨["a", "b"], "T", ["x"]⟩
    ⟨"T", ⟨"End", "e", NodeType.endNode, [], [], true⟩⟩
    (by decide) (by decide) (by decide)

/-- Claim C7: SingleChoice resolution: with exactly one selected choice
`c`, advance follows the first connection whose `sourceHandle` equals `c`,
pushing the previous step onto history (when the target exists); if no
connection from the step carries `c`, advance fails with `noPathDefined`. -/
theorem singleChoice_resolution (nodes : List AppNode) (edges : List Edge)
    (s : ViewerState) (n : AppNode) (c : String)
    (hfind : findNode nodes s.currentNodeId = some n)
    (htype : n.data.type = NodeType.radio)
    (hsel : s.selections = [c]) :
    (edges.find? (fun e => e.source == s.currentNodeId &&
        e.sourceHandle == some c) = none →
      handleContinue nodes edges s = (s, ContinueOutcome.noPathDefined)) ∧
    (∀ e tn, edges.find? (fun x => x.source == s.currentNodeId &&
        x.sourceHandle == some c) = some e →
      findNode nodes e.target = some tn →
      handleContinue nodes edges s =
        (⟨s.history ++ [s.currentNodeId], e.target, []⟩,
          ContinueOutcome.moved)) := by
  have hhead : s.selections.head? = some c := by
    rw [hsel]
    rfl
  constructor
  · intro hnone
    simp [handleContinue, nextEdgeFor, hfind, htype, hhead, hnone]
  · intro e tn he ht
    simp [handleContinue, nextEdgeFor, hfind, htype, hhead, he, ht]

/-- Witness for C7, the spec's scenario: SingleChoice `Q` with choices
`{A, B}`, connections `Q--A-->X` and `Q--B-->Y`; selecting `B` (via
`toggleSelection`) then advancing yields current step `Y` with history
`[Q]`. -/
theorem singleChoice_resolution_witness :
    handleContinue
      [⟨"Q", ⟨"Q", "q", NodeType.radio, [⟨"A", "A"⟩, ⟨"B", "B"⟩], [], false⟩⟩,
       ⟨"X", ⟨"X", "x", NodeType.static, [], [], false⟩⟩,
       ⟨"Y", ⟨"Y", "y", NodeType.static, [], [], false⟩⟩]
      [⟨"Q", "X", some "A"⟩, ⟨"Q", "Y", some "B"⟩]
      (toggleSelection ⟨[], "Q", []⟩ "B" true) =
      (⟨["Q"], "Y", []⟩, ContinueOutcome.moved) :=
  (singleChoice_resolution
    [⟨"Q", ⟨"Q", "q", NodeType.radio, [⟨"A", "A"⟩, ⟨"B", "B"⟩], [], false⟩⟩,
     ⟨"X", ⟨"X", "x", NodeType.static, [], [], false⟩⟩,
     ⟨"Y", ⟨"Y", "y", NodeType.static, [], [], false⟩⟩]
    [⟨"Q", "X", some "A"⟩, ⟨"Q", "Y", some "B"⟩]
    (toggleSelection ⟨[], "Q", []⟩ "B" true)
    ⟨"Q", ⟨"Q", "q", NodeType.radio, [⟨"A", "A"⟩, ⟨"B", "B"⟩], [], false⟩⟩
    "B" (by decide) (by decide) (by decide)).2
    ⟨"Q", "Y", some "B"⟩
    ⟨"Y", ⟨"Y", "y", NodeType.static, [], [], false⟩⟩
    (by decide) (by decide)

/-- Claim C8: an Informational (static) step with no outgoing connection:
advance fails with `noPathDefined` and the traversal state is unchanged. -/
theorem informational_no_connection_fails (nodes : List AppNode)
    (edges : List Edge) (s : ViewerState) (n : AppNode)
    (hfind : findNode nodes s.currentNodeId = some n)
    (htype : n.data.type = NodeType.static)
    (hnoedge : ∀ e ∈ edges, ¬ e.source = s.currentNodeId) :
    handleContinue nodes edges s = (s, ContinueOutcome.noPathDefined) := by
  have hfindnone :
      edges.find? (fun e => e.source == s.currentNodeId) = none := by
    rw [List.find?_eq_none]
    intro e he
    simpa using hnoedge e he
  simp [handleContinue, nextEdgeFor, hfind, htype, hfindnone]

/-- Witness for C8: a static start node whose only edge in the graph leaves
a different node — advance fails with `noPathDefined`, state unchanged. -/
theorem informational_no_connection_fails_witness :
    handleContinue
      [⟨"start", ⟨"Start", "w", NodeType.static, [], [], false⟩⟩]
      [⟨"A", "B", none⟩] ⟨[], "start", []⟩ =
      (⟨[], "start", []⟩, ContinueOutcome.noPathDefined) :=
  informational_no_connection_fails
    [⟨"start", ⟨"Start", "w", NodeType.static, [], [], false⟩⟩]
    [⟨"A", "B", none⟩] ⟨[], "start", []⟩
    ⟨"start", ⟨"Start", "w", NodeType.static, [], [], false⟩⟩
    (by decide) (by decide) (by decide)

/-- Claim C10: an Informational (static) step with outgoing connections:
advance follows the first connection in the graph's edge-list order whose
source is the current step — later outgoing connections are ignored. -/
theorem informational_first_edge (nodes : List AppNode)
    (pre post : List Edge) (e : Edge) (s : ViewerState) (n tn : AppNode)
    (hfind : findNode nodes s.currentNodeId = some n)
    (htype : n.data.type = NodeType.static)
    (hpre : ∀ x ∈ pre, ¬ x.source = s.currentNodeId)
    (hsrc : e.source = s.currentNodeId)
    (htgt : findNode nodes e.target = some tn) :
    handleContinue nodes (pre ++ e :: post) s =
      (⟨s.history ++ [s.currentNodeId], e.target, []⟩,
        ContinueOutcome.moved) := by
  have hf : (pre ++ e :: post).find?
      (fun x => x.source == s.currentNodeId) = some e := by
    rw [List.find?_append]
    have h1 : pre.find? (fun x => x.source == s.currentNodeId) = none := by
      rw [List.find?_eq_none]
      intro x hx
      simpa using hpre x hx
    rw [h1, List.find?_cons_of_pos post (by simpa using hsrc)]
    rfl
  simp [handleContinue, nextEdgeFor, hfind, htype, hf, htgt]

/-- Witness for C10: static `start` with two outgoing edges, to `X` then to
`Y`; advance takes the earlier-listed edge, to `X`. -/
theorem informational_first_edge_witness :
    handleContinue
      [⟨"start", ⟨"Start", "w", NodeType.static, [], [], false⟩⟩,
       ⟨"X", ⟨"X", "x", NodeType.static, [], [], false⟩⟩,
       ⟨"Y", ⟨"Y", "y", NodeType.static, [], [], false⟩⟩]
      ([] ++ ⟨"start", "X", none⟩ :: [⟨"start", "Y", none⟩])
      ⟨[], "start", []⟩ =
      (⟨["start"], "X", []⟩, ContinueOutcome.moved) :=
  informational_first_edge
    [⟨"start", ⟨"Start", "w", NodeType.static, [], [], false⟩⟩,
     ⟨"X", ⟨"X", "x", NodeType.static, [], [], false⟩⟩,
     ⟨"Y", ⟨"Y", "y", NodeType.static, [], [], false⟩⟩]
    [] [⟨"start", "Y", none⟩] ⟨"start", "X", none⟩ ⟨[], "start", []⟩
    ⟨"start", ⟨"Start", "w", NodeType.static, [], [], false⟩⟩
    ⟨"X", ⟨"X", "x", NodeType.static, [], [], false⟩⟩
    (by decide) (by decide) (by decide) (by decide) (by decide)

/-- Claim C9: start validation: the run starts at the engine's fixed start
id `"start"`; when no node carries that id, starting fails with
`MissingStep`, and when one does, the initial traversal state is positioned
at `"start"` with empty selections and empty history. -/
theorem start_validation (nodes : List AppNode) :
    ((∀ n ∈ nodes, ¬ n.id = "start") →
      startFlow nodes = Except.error StartError.MissingStep) ∧
    ((∃ n ∈ nodes, n.id = "start") →
      startFlow nodes = Except.ok ⟨[], "start", []⟩) := by
  constructor
  · intro h
    have hnone : findNode nodes "start" = none := by
      unfold findNode
      rw [List.find?_eq_none]
      intro x hx
      simpa using h x hx
    simp [startFlow, initialViewerState, hnone]
  · intro h
    obtain ⟨n, hn, hid⟩ := h
    have hsome : (findNode nodes "start").isSome = true := by
      unfold findNode
      exact List.find?_isSome.mpr ⟨n, hn, by simpa using hid⟩
    obtain ⟨m, hm⟩ := Option.isSome_iff_exists.mp hsome
    simp [startFlow, initialViewerState, hm]

/-- Witness for C9: with no nodes the run fails with `MissingStep`; with a
`start` node it starts at `"start"` with empty history and selections. -/
theorem start_validation_witness :
    startFlow [] = Except.error StartError.MissingStep ∧
    startFlow [⟨"start", ⟨"Start", "w", NodeType.static, [], [], false⟩⟩] =
      Except.ok ⟨[], "start", []⟩ :=
  ⟨(start_validation []).1 (by decide),
   (start_validation
      [⟨"start", ⟨"Start", "w", NodeType.static, [], [], false⟩⟩]).2
      (by decide)⟩

/-- Counterexample to C4 as stated: a MultiChoice step `M` with an
empty-requirement ("else") path wired to `Z`: with empty selections,
`advance` is not blocked — it commits a forward move to `Z` and changes the
state.  The engine does not re-validate the selection precondition; only
the Viewer's disabled Continue button gates it. -/
theorem empty_selection_advances_counterexample :
    handleContinue
      [⟨"M", ⟨"M", "m", NodeType.checkbox, [⟨"A", "A"⟩],
          [⟨"p", "Else", []⟩], false⟩⟩,
       ⟨"Z", ⟨"Z", "z", NodeType.static, [], [], false⟩⟩]
      [⟨"M", "Z", some "p"⟩] ⟨[], "M", []⟩ =
      (⟨["M"], "Z", []⟩, ContinueOutcome.moved) ∧
    (⟨["M"], "Z", []⟩ : ViewerState) ≠ (⟨[], "M", []⟩ : ViewerState) := by
  decide

/-- Claim C4 (amended): `advance` does not independently re-validate the
selection precondition — with empty selections it can commit a move (see
the counterexample).  What does hold: with empty selections, a MultiChoice
advance fails with `noPathDefined` whenever every path has a non-empty
requirement list, and a SingleChoice advance fails with `noPathDefined`
whenever every connection in the graph carries a `sourceHandle`. -/
theorem empty_selection_gate (nodes : List AppNode) (edges : List Edge)
    (s : ViewerState) (n : AppNode)
    (hfind : findNode nodes s.currentNodeId = some n)
    (hsel : s.selections = []) :
    (n.data.type = NodeType.checkbox →
      (∀ p ∈ n.data.paths, ¬ p.requiredOptionIds = []) →
      handleContinue nodes edges s = (s, ContinueOutcome.noPathDefined)) ∧
    (n.data.type = NodeType.radio →
      (∀ e ∈ edges, e.sourceHandle.isSome = true) →
      handleContinue nodes edges s = (s, ContinueOutcome.noPathDefined)) := by
  constructor
  · intro htype hpaths
    have hres : resolvePath n.data.paths s.selections = none := by
      unfold resolvePath
      rw [List.find?_eq_none]
      intro q hq hm
      have hqp : q ∈ n.data.paths := mem_sortPaths.mp hq
      have hall := (matchesPath_iff s.selections q).mp hm
      cases hreq : q.requiredOptionIds with
      | nil => exact hpaths q hqp hreq
      | cons r rs =>
        have hr : r ∈ s.selections := by
          apply hall
          rw [hreq]
          exact List.mem_cons_self r rs
        rw [hsel] at hr
        simp at hr
    simp [handleContinue, nextEdgeFor, hfind, htype, hres]
  · intro htype hedges
    have hf : edges.find? (fun e => e.source == s.currentNodeId &&
        e.sourceHandle == s.selections.head?) = none := by
      rw [List.find?_eq_none]
      intro e he
      obtain ⟨v, hv⟩ := Option.isSome_iff_exists.mp (hedges e he)
      rw [hsel]
      simp [hv]
    simp [handleContinue, nextEdgeFor, hfind, htype, hf]

/-- Witness for C4 (amended): a checkbox step whose single path requires
`A`, and a radio step whose lone outgoing edge carries a handle; with empty
selections both advances fail with `noPathDefined` and change nothing. -/
theorem empty_selection_gate_witness :
    handleContinue
      [⟨"M", ⟨"M", "m", NodeType.checkbox, [⟨"A", "A"⟩],
          [⟨"p", "Path", ["A"]⟩], false⟩⟩]
      [⟨"M", "Z", some "p"⟩] ⟨[], "M", []⟩ =
      (⟨[], "M", []⟩, ContinueOutcome.noPathDefined) ∧
    handleContinue
      [⟨"Q", ⟨"Q", "q", NodeType.radio, [⟨"A", "A"⟩], [], false⟩⟩]
      [⟨"Q", "Z", some "A"⟩] ⟨[], "Q", []⟩ =
      (⟨[], "Q", []⟩, ContinueOutcome.noPathDefined) :=
  ⟨(empty_selection_gate
      [⟨"M", ⟨"M", "m", NodeType.checkbox, [⟨"A", "A"⟩],
          [⟨"p", "Path", ["A"]⟩], false⟩⟩]
      [⟨"M", "Z", some "p"⟩] ⟨[], "M", []⟩
      ⟨"M", ⟨"M", "m", NodeType.checkbox, [⟨"A", "A"⟩],
          [⟨"p", "Path", ["A"]⟩], false⟩⟩
      (by decide) (by decide)).1 (by decide) (by decide),
   (empty_selection_gate
      [⟨"Q", ⟨"Q", "q", NodeType.radio, [⟨"A", "A"⟩], [], false⟩⟩]
      [⟨"Q", "Z", some "A"⟩] ⟨[], "Q", []⟩
      ⟨"Q", ⟨"Q", "q", NodeType.radio, [⟨"A", "A"⟩], [], false⟩⟩
      (by decide) (by decide)).2 (by decide) (by decide)⟩

end FlowBuilder
